import Mathlib

/-!
Shallow embedding of `esmvalcore/configuration/_config_object.py`:
the validated configuration mapping (`Config`), file reading with
`site`/`include` handling (`read_config_file`), and the user-configuration
loader (`_load_user_config`) acting on the module-level state
(`config`, `config_default`, `config_orig`).

Python dictionaries are modelled as insertion-ordered association lists
(`Dict V`); validator registries (`_validators`) as partial maps from key
to a validator function returning either a coerced value or a Python
exception (`ValueError` / `TypeError`); filesystem access as a partial
map from path strings to parsed YAML documents.
-/

namespace ESMValConf

/-- Exception raised by a validator function: Python distinguishes
`ValueError` (semantically invalid value) from `TypeError` (wrong value
shape); `Config.__setitem__` catches only the former. -/
inductive VErr : Type where
  | valueError (msg : String)
  | typeError (msg : String)
deriving DecidableEq, Repr

/-- A validator from `_config_validators`: coerces a raw value or raises. -/
abbrev Validator (V : Type) := V → Except VErr V

/-- The validator registry (`Config.validate`, a Python dict): lookup by
key, `none` models the `KeyError` of a missing entry. -/
abbrev Registry (V : Type) := String → Option (Validator V)

/-- A Python dict with string keys: insertion-ordered association list. -/
abbrev Dict (V : Type) := List (String × V)

namespace Dict

/-- Python `d[k]` lookup (first matching key). -/
def lookup (d : Dict V) (k : String) : Option V :=
  List.lookup k d

/-- Python `d[k] = v`: replace in place when the key is present,
append at the end otherwise. -/
def set (d : Dict V) (k : String) (v : V) : Dict V :=
  if (lookup d k).isSome then
    d.map (fun p => if p.1 = k then (k, v) else p)
  else
    d ++ [(k, v)]

/-- The keys of a dict in insertion order. -/
def keys (d : Dict V) : List String :=
  d.map Prod.fst

/-- Python `d.update(items)` for plain dicts (no validation): every item
is written with `set`, later items overwriting earlier ones. -/
def updateAll (d : Dict V) (items : List (String × V)) : Dict V :=
  items.foldl (fun acc p => set acc p.1 p.2) d

/-- Python `dict(pairs)`. -/
def ofList (items : List (String × V)) : Dict V :=
  updateAll [] items

end Dict

/-- Exception escaping `Config.__setitem__`: either the
`InvalidConfigParameter` it raises itself, or a validator exception it
does not catch (anything other than `ValueError` and `KeyError`). -/
inductive ConfigErr : Type where
  | invalidParam (msg : String)
  | uncaught (e : VErr)
deriving DecidableEq, Repr

/-- The validation step of `Config.__setitem__`: look the validator up by
key (a missing key raises `KeyError`, caught and turned into
`InvalidConfigParameter` naming the key); run it (a `ValueError` is
wrapped into `InvalidConfigParameter` naming the key, a `TypeError`
escapes uncaught); return the coerced value. -/
def validate_value (reg : Registry V) (key : String) (val : V) :
    Except ConfigErr V :=
  match reg key with
  | none =>
      .error (.invalidParam ("`" ++ key ++ "` is not a valid config parameter."))
  | some f =>
      match f val with
      | .error (.valueError m) =>
          .error (.invalidParam ("Key `" ++ key ++ "`: " ++ m))
      | .error (.typeError m) => .error (.uncaught (.typeError m))
      | .ok cval => .ok cval

/-- `Config.__setitem__`: validate, then store the coerced value with
`dict.__setitem__`. On failure the dict is untouched (the store is the
last statement). -/
def setitem (reg : Registry V) (d : Dict V) (key : String) (val : V) :
    Except ConfigErr (Dict V) :=
  match validate_value reg key val with
  | .error e => .error e
  | .ok cval => .ok (Dict.set d key cval)

/-- `Config.__getitem__`: plain dict lookup. -/
def getitem (d : Dict V) (key : String) : Option V :=
  Dict.lookup d key

/-- `MutableMapping.update` on a `Config`: write each item through
`__setitem__` in order; on the first exception the loop stops, leaving
the dict as already mutated, and the exception propagates. -/
def updateSeq (reg : Registry V) (d : Dict V) :
    List (String × V) → Dict V × Option ConfigErr
  | [] => (d, none)
  | (k, v) :: rest =>
      match setitem reg d k v with
      | .error e => (d, some e)
      | .ok d2 => updateSeq reg d2 rest

/-- Lexicographic order on character lists, the order Python's `sorted`
uses on strings. -/
def charsLe : List Char → List Char → Bool
  | [], _ => true
  | _ :: _, [] => false
  | a :: as, b :: bs =>
      if a < b then true
      else if b < a then false
      else charsLe as bs

/-- Lexicographic order on strings. -/
def strLe (a b : String) : Bool :=
  charsLe a.toList b.toList

/-- The sorting relation used by `Config.__iter__`. -/
def strLeR (a b : String) : Prop :=
  strLe a b = true

instance : DecidableRel strLeR := fun a b => by
  unfold strLeR; infer_instance

/-- `Config.__iter__`: `sorted(dict.__iter__(self))`, the stored keys in
lexicographic order (computed afresh at every call). -/
def iterKeys (d : Dict V) : List String :=
  List.insertionSort strLeR (Dict.keys d)

/-- `Config.items()` (via `MutableMapping`): pairs `(k, self[k])` for `k`
in iteration (= sorted) order. -/
def sortedItems (d : Dict V) : List (String × V) :=
  (iterKeys d).filterMap (fun k => (Dict.lookup d k).map (fun v => (k, v)))

/-- `Config.find_all(pattern)`: build a new `Config` from the items whose
key matches the pattern, re-running every value through `__setitem__`
(hence through its validator). The compiled regular expression's
`search` is abstracted into the key predicate `p`. -/
def find_all (reg : Registry V) (p : String → Bool) (d : Dict V) :
    Except ConfigErr (Dict V) :=
  match updateSeq reg [] ((sortedItems d).filter (fun kv => p kv.1)) with
  | (r, none) => .ok r
  | (_, some e) => .error e

/-- The key predicate of `Config.select_group(group)`: `re.search` with
the pattern `'^' + group + '.'` for a `group` free of regex
metacharacters. The trailing `.` of the pattern is the regex
any-character class (it matches every character except a newline), not a
literal dot. -/
def selectGroupMatch (g key : String) : Bool :=
  List.isPrefixOf g.toList key.toList &&
    match key.toList.drop g.length with
    | [] => false
    | c :: _ => c != '\n'

/-- `Config.select_group(group)`: `find_all` with pattern `'^' + group + '.'`,
then a plain dict of the subset's items with the first
`len(group) + 1` characters stripped from each key. -/
def select_group (reg : Registry V) (g : String) (d : Dict V) :
    Except ConfigErr (Dict V) :=
  match find_all reg (selectGroupMatch g) d with
  | .error e => .error e
  | .ok subset =>
      .ok (Dict.ofList ((sortedItems subset).map
        (fun kv => (String.mk (kv.1.toList.drop (g.length + 1)), kv.2))))

/-- A parsed YAML configuration document: the optional `site` and
`include` keys (both popped before further processing in
`read_config_file`) and the remaining entries. -/
structure RawDoc (V : Type) where
  site : Option String
  includeFile : Option String
  entries : List (String × V)

/-- The filesystem: path string to parsed document, `none` for a missing
file. Path resolution (expanduser / module-relative fallback) is
abstracted into the keys of this map. -/
abbrev FileSystem (V : Type) := String → Option (RawDoc V)

/-- `read_config_file`: raise `IOError` when the file does not exist;
resolve a `site` shorthand to a `config-<site>.yml` include (overriding
any `include` key); when an include is present, recursively read it and
`cfg.update(include_cfg)` — the included file's entries overwrite the
current document's. `fuel` bounds the include recursion (the Python code
recurses unboundedly; a cyclic include would not terminate there). -/
def read_config_file (fs : FileSystem V) :
    Nat → String → Except String (List (String × V))
  | 0, _ => .error "include recursion fuel exhausted"
  | fuel + 1, file =>
      match fs file with
      | none => .error ("Config file `" ++ file ++ "` does not exist.")
      | some cfg =>
          let inc : Option String :=
            match cfg.site with
            | some s => some ("config-" ++ s ++ ".yml")
            | none => cfg.includeFile
          match inc with
          | none => .ok cfg.entries
          | some incFile =>
              match read_config_file fs fuel incFile with
              | .error e => .error e
              | .ok incEntries => .ok (Dict.updateAll cfg.entries incEntries)

/-- Exception escaping `_load_user_config`: the `IOError` of a missing
file, or a validation error from one of the `Config.update` calls. -/
inductive LoadErr : Type where
  | ioErr (msg : String)
  | configErr (e : ConfigErr)
deriving DecidableEq, Repr

/-- The module-level globals of `_config_object`: the live `config`, the
baseline `config_default` and the snapshot `config_orig`. -/
structure LoadState (V : Type) where
  config : Dict V
  config_default : Dict V
  config_orig : Dict V
deriving DecidableEq, Repr

/-- The body of `_load_user_config` after the file has been read:
`config.clear()`, `config.update(config_default)` (a `Config` is
iterated in sorted key order and every value is re-validated),
`config.update(mapping)`, then `config_orig = Config(config.copy())`
(again re-validated, in sorted order). An exception at any stage leaves
`config` exactly as mutated so far and the old `config_orig` in place. -/
def load_with_mapping (reg : Registry V) (st : LoadState V)
    (mapping : List (String × V)) : LoadState V × Option LoadErr :=
  match updateSeq reg [] (sortedItems st.config_default) with
  | (c1, some e) => ({ st with config := c1 }, some (.configErr e))
  | (c1, none) =>
      match updateSeq reg c1 mapping with
      | (c2, some e) => ({ st with config := c2 }, some (.configErr e))
      | (c2, none) =>
          match updateSeq reg [] (sortedItems c2) with
          | (_, some e) => ({ st with config := c2 }, some (.configErr e))
          | (orig, none) =>
              ({ st with config := c2, config_orig := orig }, none)

/-- `_load_user_config(filename, raise_exception)`: read the user file;
on `IOError`, re-raise when `raise_exception` is true, otherwise proceed
with an empty mapping; then rebuild `config` from the defaults overlaid
with the mapping. -/
def load_user_config (reg : Registry V) (fs : FileSystem V) (fuel : Nat)
    (filename : String) (raise_exception : Bool) (st : LoadState V) :
    LoadState V × Option LoadErr :=
  match read_config_file fs fuel filename with
  | .error msg =>
      if raise_exception then (st, some (.ioErr msg))
      else load_with_mapping reg st []
  | .ok mapping => load_with_mapping reg st mapping

/-- The declared default of the `raise_exception` parameter in the
signature `def _load_user_config(filename, raise_exception=True)`. -/
def load_user_config_default_raise : Bool := true

/-- `_load_user_config(filename)` called without the flag: the declared
default `raise_exception=True` applies. -/
def load_user_config_def (reg : Registry V) (fs : FileSystem V) (fuel : Nat)
    (filename : String) (st : LoadState V) : LoadState V × Option LoadErr :=
  load_user_config reg fs fuel filename load_user_config_default_raise st

/-! Properties of the lexicographic key order. -/

theorem charsLe_total (a b : List Char) : charsLe a b = true ∨ charsLe b a = true := by
  induction a generalizing b with
  | nil => left; rfl
  | cons x xs ih =>
      cases b with
      | nil => right; rfl
      | cons y ys =>
          rcases lt_trichotomy x y with h | h | h
          · left; simp [charsLe, h]
          · subst h
            rcases ih ys with h2 | h2
            · left; simp [charsLe, lt_irrefl, h2]
            · right; simp [charsLe, lt_irrefl, h2]
          · right; simp [charsLe, h]

theorem charsLe_trans {a b c : List Char} (hab : charsLe a b = true)
    (hbc : charsLe b c = true) : charsLe a c = true := by
  induction a generalizing b c with
  | nil => rfl
  | cons x xs ih =>
      cases b with
      | nil => simp [charsLe] at hab
      | cons y ys =>
          cases c with
          | nil => simp [charsLe] at hbc
          | cons z zs =>
              by_cases hxy : x < y
              · by_cases hyz : y < z
                · simp [charsLe, lt_trans hxy hyz]
                · by_cases hzy : z < y
                  · simp [charsLe, hyz, hzy] at hbc
                  · have : y = z := le_antisymm (not_lt.mp hzy) (not_lt.mp hyz)
                    subst this
                    simp [charsLe, hxy]
              · by_cases hyx : y < x
                · simp [charsLe, hxy, hyx] at hab
                · have hexy : x = y := le_antisymm (not_lt.mp hyx) (not_lt.mp hxy)
                  subst hexy
                  simp only [charsLe, lt_irrefl, if_false] at hab
                  by_cases hyz : x < z
                  · simp [charsLe, hyz]
                  · by_cases hzy : z < x
                    · simp [charsLe, hyz, hzy] at hbc
                    · have : x = z := le_antisymm (not_lt.mp hzy) (not_lt.mp hyz)
                      subst this
                      simp only [charsLe, lt_irrefl, if_false] at hbc ⊢
                      exact ih hab hbc

theorem charsLe_antisymm {a b : List Char} (hab : charsLe a b = true)
    (hba : charsLe b a = true) : a = b := by
  induction a generalizing b with
  | nil =>
      cases b with
      | nil => rfl
      | cons y ys => simp [charsLe] at hba
  | cons x xs ih =>
      cases b with
      | nil => simp [charsLe] at hab
      | cons y ys =>
          by_cases hxy : x < y
          · simp [charsLe, hxy, lt_asymm hxy] at hba
          · by_cases hyx : y < x
            · simp [charsLe, hxy, hyx] at hab
            · have hexy : x = y := le_antisymm (not_lt.mp hyx) (not_lt.mp hxy)
              subst hexy
              simp only [charsLe, lt_irrefl, if_false] at hab hba
              rw [ih hab hba]

theorem string_toList_inj {a b : String} (h : a.toList = b.toList) : a = b := by
  cases a; cases b
  simp only [String.toList, String.data] at h
  exact congrArg String.mk h

instance : IsTotal String strLeR :=
  ⟨fun a b => charsLe_total a.toList b.toList⟩

instance : IsTrans String strLeR :=
  ⟨fun _ _ _ hab hbc => charsLe_trans hab hbc⟩

instance : IsAntisymm String strLeR :=
  ⟨fun _ _ hab hba => string_toList_inj (charsLe_antisymm hab hba)⟩

/-! Lookup and update lemmas for `Dict`. -/

theorem lookup_cons (k0 : String) (v0 : V) (d : Dict V) (k : String) :
    Dict.lookup ((k0, v0) :: d) k = if k = k0 then some v0 else Dict.lookup d k := by
  simp only [Dict.lookup, List.lookup]
  by_cases h : k = k0
  · simp [h]
  · simp [h, beq_eq_false_iff_ne.mpr h]

theorem lookup_append (d e : Dict V) (k : String) :
    Dict.lookup (d ++ e) k =
      match Dict.lookup d k with
      | some v => some v
      | none => Dict.lookup e k := by
  induction d with
  | nil => rfl
  | cons p d ih =>
      obtain ⟨k0, v0⟩ := p
      by_cases h : k = k0 <;> simp [lookup_cons, h, ih]

theorem lookup_eq_none_of_not_mem_keys {d : Dict V} {k : String}
    (h : k ∉ Dict.keys d) : Dict.lookup d k = none := by
  induction d with
  | nil => rfl
  | cons p d ih =>
      simp only [Dict.keys, List.map_cons, List.mem_cons] at h
      push_neg at h
      rw [show p = (p.1, p.2) from rfl, lookup_cons, if_neg h.1]
      exact ih (by simpa [Dict.keys] using h.2)

theorem mem_keys_of_lookup_some {d : Dict V} {k : String} {v : V}
    (h : Dict.lookup d k = some v) : k ∈ Dict.keys d := by
  by_contra hk
  rw [lookup_eq_none_of_not_mem_keys hk] at h
  exact Option.noConfusion h

theorem mem_of_lookup_some {d : Dict V} {k : String} {v : V}
    (h : Dict.lookup d k = some v) : (k, v) ∈ d := by
  induction d with
  | nil => exact Option.noConfusion h
  | cons p d ih =>
      rw [show p = (p.1, p.2) from rfl, lookup_cons] at h
      split at h
      · obtain ⟨rfl⟩ := h
        simp_all
      · exact List.mem_cons_of_mem _ (ih h)

theorem lookup_of_mem_nodup {d : Dict V} {k : String} {v : V}
    (hnd : (Dict.keys d).Nodup) (hmem : (k, v) ∈ d) :
    Dict.lookup d k = some v := by
  induction d with
  | nil => simp at hmem
  | cons p d ih =>
      simp only [Dict.keys, List.map_cons, List.nodup_cons] at hnd
      rcases List.mem_cons.mp hmem with h | h
      · rw [← h, lookup_cons, if_pos rfl]
      · have hk : k ≠ p.1 := by
          rintro rfl
          exact hnd.1 (List.mem_map.mpr ⟨(p.1, v), h, rfl⟩)
        rw [show p = (p.1, p.2) from rfl, lookup_cons, if_neg hk]
        exact ih hnd.2 h

theorem lookup_map_replace_none {d : Dict V} {k : String} (hn : Dict.lookup d k = none)
    (k' : String) (v : V) :
    Dict.lookup (d.map (fun p => if p.1 = k then (k, v) else p)) k' =
      Dict.lookup d k' := by
  induction d with
  | nil => rfl
  | cons q d ihq =>
      obtain ⟨k1, v1⟩ := q
      have hk1 : ¬k = k1 := by
        intro h
        rw [lookup_cons, if_pos h] at hn
        exact Option.noConfusion hn
      rw [lookup_cons, if_neg hk1] at hn
      have hk1' : ¬(k1 = k) := fun h => hk1 (Eq.symm h)
      simp only [List.map_cons, if_neg hk1']
      rw [lookup_cons, lookup_cons]
      by_cases h' : k' = k1
      · rw [if_pos h', if_pos h']
      · rw [if_neg h', if_neg h']
        exact ihq hn

theorem lookup_map_replace {d : Dict V} {k : String} (hsome : (Dict.lookup d k).isSome)
    (k' : String) (v : V) :
    Dict.lookup (d.map (fun p => if p.1 = k then (k, v) else p)) k' =
      if k' = k then some v else Dict.lookup d k' := by
  induction d with
  | nil => simp [Dict.lookup] at hsome
  | cons p d ih =>
      obtain ⟨k0, v0⟩ := p
      by_cases h0 : k0 = k
      · subst h0
        by_cases h' : k' = k0 <;> simp only [List.map_cons, if_pos rfl, lookup_cons, h',
          if_true, if_false, reduceIte]
        by_cases hd : (Dict.lookup d k0).isSome
        · rw [ih hd, if_neg h']
        · have hn : Dict.lookup d k0 = none := Option.not_isSome_iff_eq_none.mp hd
          rw [lookup_map_replace_none hn k' v]
      · have h0' : ¬(k = k0) := fun h => h0 (Eq.symm h)
        have hd : (Dict.lookup d k).isSome := by
          rw [lookup_cons, if_neg h0'] at hsome
          exact hsome
        by_cases h' : k' = k0
        · subst h'
          simp [lookup_cons, h0]
        · simp only [List.map_cons, if_neg h0, lookup_cons, if_neg h']
          exact ih hd

theorem lookup_set (d : Dict V) (k k' : String) (v : V) :
    Dict.lookup (Dict.set d k v) k' = if k' = k then some v else Dict.lookup d k' := by
  unfold Dict.set
  split
  · rename_i hsome
    exact lookup_map_replace hsome k' v
  · rename_i hnone
    have hn : Dict.lookup d k = none := Option.not_isSome_iff_eq_none.mp hnone
    rw [lookup_append]
    by_cases h' : k' = k
    · subst h'
      rw [hn]
      simp [lookup_cons]
    · cases h : Dict.lookup d k'
      · have hb : (k' == k) = false := beq_eq_false_iff_ne.mpr h'
        simp [lookup_cons, h', Dict.lookup, List.lookup, hb]
      · simp [h']

theorem keys_set (d : Dict V) (k : String) (v : V) :
    Dict.keys (Dict.set d k v) =
      if (Dict.lookup d k).isSome then Dict.keys d else Dict.keys d ++ [k] := by
  unfold Dict.set
  split
  · rename_i hsome
    unfold Dict.keys
    rw [List.map_map]
    apply List.map_congr_left
    intro p _
    by_cases h : p.1 = k <;> simp [h]
  · rename_i hnone
    simp [Dict.keys]

/-! Lemmas about `setitem` and `updateSeq`. -/

theorem setitem_ok_inv {reg : Registry V} {d d2 : Dict V} {k : String} {v : V}
    (h : setitem reg d k v = .ok d2) :
    ∃ cv, validate_value reg k v = .ok cv ∧ d2 = Dict.set d k cv := by
  unfold setitem at h
  split at h
  · exact Except.noConfusion h
  · rename_i cv hcv
    exact ⟨cv, hcv, (Except.ok.injEq _ _ ▸ h).symm⟩

theorem setitem_error_inv {reg : Registry V} {d : Dict V} {k : String} {v : V}
    {e : ConfigErr} (h : setitem reg d k v = .error e) :
    validate_value reg k v = .error e := by
  unfold setitem at h
  split at h
  · rename_i e' he
    rw [he]
    exact congrArg Except.error (Except.error.injEq _ _ ▸ h)
  · exact Except.noConfusion h

theorem updateSeq_append {reg : Registry V} {d d1 : Dict V} {l1 : List (String × V)}
    (l2 : List (String × V)) (h : updateSeq reg d l1 = (d1, none)) :
    updateSeq reg d (l1 ++ l2) = updateSeq reg d1 l2 := by
  induction l1 generalizing d with
  | nil =>
      obtain ⟨rfl, -⟩ := Prod.mk.injEq .. ▸ h
      rfl
  | cons p l1 ih =>
      obtain ⟨k, v⟩ := p
      rw [List.cons_append]
      cases hs : setitem reg d k v with
      | error e =>
          simp only [updateSeq, hs] at h
          exact Option.noConfusion (congrArg Prod.snd h)
      | ok d2 =>
          simp only [updateSeq, hs] at h ⊢
          exact ih h

theorem updateSeq_fail {reg : Registry V} {d d1 : Dict V} {l1 : List (String × V)}
    {k : String} {v : V} {e : ConfigErr} (rest : List (String × V))
    (h1 : updateSeq reg d l1 = (d1, none)) (h2 : setitem reg d1 k v = .error e) :
    updateSeq reg d (l1 ++ (k, v) :: rest) = (d1, some e) := by
  rw [updateSeq_append ((k, v) :: rest) h1]
  unfold updateSeq
  rw [h2]

theorem updateSeq_fst_lookup_of_not_mem {reg : Registry V} {items : List (String × V)}
    {k : String} (d : Dict V) (hk : k ∉ items.map Prod.fst) :
    Dict.lookup (updateSeq reg d items).1 k = Dict.lookup d k := by
  induction items generalizing d with
  | nil => rfl
  | cons p rest ih =>
      obtain ⟨k0, v0⟩ := p
      simp only [List.map_cons, List.mem_cons] at hk
      push_neg at hk
      unfold updateSeq
      cases hs : setitem reg d k0 v0 with
      | error e => rfl
      | ok d2 =>
          obtain ⟨cv, -, rfl⟩ := setitem_ok_inv hs
          rw [ih _ hk.2, lookup_set, if_neg hk.1]

theorem updateSeq_ok_lookup_of_mem {reg : Registry V} {d d' : Dict V}
    {items : List (String × V)} {k : String} {v : V}
    (hnd : (items.map Prod.fst).Nodup) (hmem : (k, v) ∈ items)
    (h : updateSeq reg d items = (d', none)) :
    ∃ cv, validate_value reg k v = .ok cv ∧ Dict.lookup d' k = some cv := by
  induction items generalizing d with
  | nil => simp at hmem
  | cons p rest ih =>
      obtain ⟨k0, v0⟩ := p
      simp only [List.map_cons, List.nodup_cons] at hnd
      cases hs : setitem reg d k0 v0 with
      | error e =>
          simp only [updateSeq, hs] at h
          exact Option.noConfusion (congrArg Prod.snd h)
      | ok d2 =>
          simp only [updateSeq, hs] at h
          rcases List.mem_cons.mp hmem with hp | hp
          · obtain ⟨rfl, rfl⟩ := Prod.mk.injEq .. ▸ hp
            obtain ⟨cv, hcv, rfl⟩ := setitem_ok_inv hs
            refine ⟨cv, hcv, ?_⟩
            have hrest : Dict.lookup d' k = Dict.lookup (Dict.set d k cv) k := by
              have := @updateSeq_fst_lookup_of_not_mem V reg rest k (Dict.set d k cv) hnd.1
              rw [h] at this
              exact this
            rw [hrest, lookup_set, if_pos rfl]
          · exact ih hnd.2 hp h

theorem updateSeq_ok_keys {reg : Registry V} {d d' : Dict V}
    {items : List (String × V)}
    (hnd : (items.map Prod.fst).Nodup)
    (hdisj : ∀ k ∈ items.map Prod.fst, Dict.lookup d k = none)
    (h : updateSeq reg d items = (d', none)) :
    Dict.keys d' = Dict.keys d ++ items.map Prod.fst := by
  induction items generalizing d with
  | nil =>
      obtain ⟨rfl, -⟩ := Prod.mk.injEq .. ▸ h
      simp
  | cons p rest ih =>
      obtain ⟨k0, v0⟩ := p
      simp only [List.map_cons, List.nodup_cons] at hnd
      cases hs : setitem reg d k0 v0 with
      | error e =>
          simp only [updateSeq, hs] at h
          exact Option.noConfusion (congrArg Prod.snd h)
      | ok d2 =>
          simp only [updateSeq, hs] at h
          obtain ⟨cv, -, rfl⟩ := setitem_ok_inv hs
          have hk0 : Dict.lookup d k0 = none :=
            hdisj k0 (List.mem_cons_self _ _)
          have hkeys2 : Dict.keys (Dict.set d k0 cv) = Dict.keys d ++ [k0] := by
            rw [keys_set, hk0]
            simp
          have hdisj2 : ∀ k ∈ rest.map Prod.fst,
              Dict.lookup (Dict.set d k0 cv) k = none := by
            intro k hk
            have hne : k ≠ k0 := fun hkk => hnd.1 (hkk ▸ hk)
            rw [lookup_set, if_neg hne]
            exact hdisj k (List.mem_cons_of_mem _ hk)
          rw [ih hnd.2 hdisj2 h, hkeys2, List.append_assoc]
          rfl

theorem updateSeq_nil_lookup_some_mem {reg : Registry V} {d' : Dict V}
    {items : List (String × V)} {k : String} {cv : V}
    (h : updateSeq reg [] items = (d', none))
    (hl : Dict.lookup d' k = some cv) : k ∈ items.map Prod.fst := by
  by_contra hk
  have := @updateSeq_fst_lookup_of_not_mem V reg items k [] hk
  rw [h] at this
  rw [this] at hl
  exact Option.noConfusion hl

/-! Lemmas about iteration order, `sortedItems`, `updateAll`, and the loader. -/

theorem iterKeys_perm (d : Dict V) : (iterKeys d).Perm (Dict.keys d) :=
  List.perm_insertionSort strLeR (Dict.keys d)

theorem iterKeys_sorted (d : Dict V) : (iterKeys d).Sorted strLeR :=
  List.sorted_insertionSort strLeR (Dict.keys d)

theorem iterKeys_canonical {d d2 : Dict V} (h : (Dict.keys d).Perm (Dict.keys d2)) :
    iterKeys d = iterKeys d2 :=
  List.eq_of_perm_of_sorted (((iterKeys_perm d).trans h).trans (iterKeys_perm d2).symm)
    (iterKeys_sorted d) (iterKeys_sorted d2)

theorem mem_iterKeys {d : Dict V} {k : String} : k ∈ iterKeys d ↔ k ∈ Dict.keys d :=
  (iterKeys_perm d).mem_iff

theorem iterKeys_nodup {d : Dict V} (h : (Dict.keys d).Nodup) : (iterKeys d).Nodup :=
  ((iterKeys_perm d).nodup_iff).mpr h

theorem lookup_some_of_mem_keys {d : Dict V} {k : String} (h : k ∈ Dict.keys d) :
    ∃ v, Dict.lookup d k = some v := by
  induction d with
  | nil => simp [Dict.keys] at h
  | cons p d ih =>
      by_cases hp : k = p.1
      · exact ⟨p.2, by rw [show p = (p.1, p.2) from rfl, lookup_cons, if_pos hp]⟩
      · simp only [Dict.keys, List.map_cons, List.mem_cons] at h
        rcases h with h | h
        · exact absurd h hp
        · obtain ⟨v, hv⟩ := ih (by simpa [Dict.keys] using h)
          exact ⟨v, by rw [show p = (p.1, p.2) from rfl, lookup_cons, if_neg hp, hv]⟩

theorem mem_sortedItems {d : Dict V} {k : String} {v : V} :
    (k, v) ∈ sortedItems d ↔ Dict.lookup d k = some v := by
  unfold sortedItems
  rw [List.mem_filterMap]
  constructor
  · rintro ⟨a, ha, hf⟩
    cases hl : Dict.lookup d a with
    | none => rw [hl] at hf; exact Option.noConfusion hf
    | some w =>
        rw [hl] at hf
        simp only [Option.map_some', Option.some.injEq, Prod.mk.injEq] at hf
        obtain ⟨rfl, rfl⟩ := hf
        exact hl
  · intro hl
    exact ⟨k, mem_iterKeys.mpr (mem_keys_of_lookup_some hl), by rw [hl]; rfl⟩

theorem keys_sortedItems_aux (d : Dict V) (l : List String)
    (hl : ∀ k ∈ l, k ∈ Dict.keys d) :
    (l.filterMap (fun k => (Dict.lookup d k).map (fun v => (k, v)))).map Prod.fst = l := by
  induction l with
  | nil => rfl
  | cons a l ih =>
      obtain ⟨w, hw⟩ := lookup_some_of_mem_keys (hl a (List.mem_cons_self a l))
      simp only [List.filterMap_cons, hw, Option.map_some']
      rw [List.map_cons, ih (fun k hk => hl k (List.mem_cons_of_mem _ hk))]

theorem keys_sortedItems (d : Dict V) :
    (sortedItems d).map Prod.fst = iterKeys d :=
  keys_sortedItems_aux d (iterKeys d) (fun _ hk => mem_iterKeys.mp hk)

theorem lookup_updateAll_of_none {items : List (String × V)} {k : String}
    (d : Dict V) (hk : Dict.lookup items k = none) :
    Dict.lookup (Dict.updateAll d items) k = Dict.lookup d k := by
  induction items generalizing d with
  | nil => rfl
  | cons p rest ih =>
      obtain ⟨k0, v0⟩ := p
      rw [lookup_cons] at hk
      by_cases h : k = k0
      · rw [if_pos h] at hk
        exact Option.noConfusion hk
      · rw [if_neg h] at hk
        show Dict.lookup (Dict.updateAll (Dict.set d k0 v0) rest) k = _
        rw [ih _ hk, lookup_set, if_neg h]

theorem lookup_updateAll_of_some {items : List (String × V)} {k : String} {v : V}
    (d : Dict V) (hnd : (items.map Prod.fst).Nodup)
    (hk : Dict.lookup items k = some v) :
    Dict.lookup (Dict.updateAll d items) k = some v := by
  induction items generalizing d with
  | nil => exact Option.noConfusion hk
  | cons p rest ih =>
      obtain ⟨k0, v0⟩ := p
      simp only [List.map_cons, List.nodup_cons] at hnd
      rw [lookup_cons] at hk
      by_cases h : k = k0
      · rw [if_pos h] at hk
        obtain rfl : v0 = v := Option.some.injEq .. ▸ hk
        subst h
        have hrest : Dict.lookup rest k = none :=
          lookup_eq_none_of_not_mem_keys hnd.1
        show Dict.lookup (Dict.updateAll (Dict.set d k v0) rest) k = some v0
        rw [lookup_updateAll_of_none _ hrest, lookup_set, if_pos rfl]
      · rw [if_neg h] at hk
        exact ih _ hnd.2 hk

theorem load_with_mapping_ok {reg : Registry V} {st st' : LoadState V}
    {mapping : List (String × V)}
    (h : load_with_mapping reg st mapping = (st', none)) :
    ∃ c1, updateSeq reg [] (sortedItems st.config_default) = (c1, none) ∧
      updateSeq reg c1 mapping = (st'.config, none) := by
  unfold load_with_mapping at h
  split at h
  · exact absurd (congrArg Prod.snd h) (by simp)
  · rename_i c1 heq
    split at h
    · exact absurd (congrArg Prod.snd h) (by simp)
    · rename_i c2 heq2
      split at h
      · exact absurd (congrArg Prod.snd h) (by simp)
      · rename_i orig heq3
        refine ⟨c1, heq, ?_⟩
        have hc : st'.config = c2 := by
          have := congrArg (fun q => LoadState.config q.1) h
          exact this.symm
        rw [hc]
        exact heq2

theorem load_with_mapping_fail_user {reg : Registry V} {st : LoadState V}
    {mapping : List (String × V)} {c1 d1 : Dict V} {e : ConfigErr}
    (hdef : updateSeq reg [] (sortedItems st.config_default) = (c1, none))
    (hmap : updateSeq reg c1 mapping = (d1, some e)) :
    load_with_mapping reg st mapping = ({ st with config := d1 }, some (.configErr e)) := by
  simp only [load_with_mapping, hdef, hmap]

theorem load_with_mapping_all_ok {reg : Registry V} {st : LoadState V}
    {mapping : List (String × V)} {c1 c2 orig : Dict V}
    (hdef : updateSeq reg [] (sortedItems st.config_default) = (c1, none))
    (hmap : updateSeq reg c1 mapping = (c2, none))
    (horig : updateSeq reg [] (sortedItems c2) = (orig, none)) :
    load_with_mapping reg st mapping =
      ({ st with config := c2, config_orig := orig }, none) := by
  simp only [load_with_mapping, hdef, hmap, horig]

theorem load_user_config_read_error {reg : Registry V} {fs : FileSystem V}
    {fuel : Nat} {filename msg : String} (st : LoadState V)
    (hread : read_config_file fs fuel filename = .error msg) :
    load_user_config reg fs fuel filename true st = (st, some (.ioErr msg)) ∧
    load_user_config reg fs fuel filename false st = load_with_mapping reg st [] := by
  constructor <;> simp [load_user_config, hread]

theorem load_user_config_read_ok {reg : Registry V} {fs : FileSystem V}
    {fuel : Nat} {filename : String} {mapping : List (String × V)}
    (raise_exception : Bool) (st : LoadState V)
    (hread : read_config_file fs fuel filename = .ok mapping) :
    load_user_config reg fs fuel filename raise_exception st =
      load_with_mapping reg st mapping := by
  simp only [load_user_config, hread]

theorem read_config_file_include {fs : FileSystem V} {fuel : Nat} {file inc : String}
    {doc : RawDoc V} {incEntries : List (String × V)}
    (hdoc : fs file = some doc) (hsite : doc.site = none)
    (hinc : doc.includeFile = some inc)
    (hread : read_config_file fs fuel inc = .ok incEntries) :
    read_config_file fs (fuel + 1) file = .ok (Dict.updateAll doc.entries incEntries) := by
  simp only [read_config_file, hdoc, hsite, hinc, hread]

theorem not_mem_keys_of_lookup_none {d : Dict V} {k : String}
    (h : Dict.lookup d k = none) : k ∉ Dict.keys d := by
  intro hk
  obtain ⟨v, hv⟩ := lookup_some_of_mem_keys hk
  rw [h] at hv
  exact Option.noConfusion hv

theorem find_all_ok_inv {reg : Registry V} {p : String → Bool} {d s : Dict V}
    (h : find_all reg p d = .ok s) :
    updateSeq reg [] ((sortedItems d).filter (fun kv => p kv.1)) = (s, none) := by
  unfold find_all at h
  split at h
  · rename_i heq
    obtain rfl : _ = s := Except.ok.injEq .. ▸ h
    exact heq
  · exact Except.noConfusion h

theorem filtered_items_keys_nodup {d : Dict V} (hnd : (Dict.keys d).Nodup)
    (p : String → Bool) :
    (((sortedItems d).filter (fun kv => p kv.1)).map Prod.fst).Nodup := by
  have hsub : ((sortedItems d).filter (fun kv => p kv.1)).Sublist (sortedItems d) :=
    List.filter_sublist _
  have : ((sortedItems d).map Prod.fst).Nodup := by
    rw [keys_sortedItems]
    exact iterKeys_nodup hnd
  exact this.sublist (hsub.map Prod.fst)

theorem mem_filtered_keys_iff {d : Dict V} {p : String → Bool} {k : String} :
    k ∈ ((sortedItems d).filter (fun kv => p kv.1)).map Prod.fst ↔
      k ∈ Dict.keys d ∧ p k = true := by
  constructor
  · rintro hk
    obtain ⟨⟨k', v⟩, hkv, rfl⟩ := List.mem_map.mp hk
    obtain ⟨hmem, hp⟩ := List.mem_filter.mp hkv
    exact ⟨mem_keys_of_lookup_some (mem_sortedItems.mp hmem), hp⟩
  · rintro ⟨hk, hp⟩
    obtain ⟨v, hv⟩ := lookup_some_of_mem_keys hk
    exact List.mem_map.mpr ⟨(k, v),
      List.mem_filter.mpr ⟨mem_sortedItems.mpr hv, hp⟩, rfl⟩

/-! Concrete registries, filesystems and states used to exercise the
theorems on explicit inputs. -/

/-- A small concrete registry over natural-number values: an identity
validator, a positivity validator, a validator that always raises
`TypeError`, two validators for grouped keys, and a non-idempotent
validator that rejects its own output. -/
def regW : Registry Nat := fun k =>
  if k = "a" then some (fun v => .ok v)
  else if k = "pos" then
    some (fun v => if 0 < v then .ok v else .error (.valueError "not positive"))
  else if k = "ty" then some (fun _ => .error (.typeError "bad shape"))
  else if k = "G.x" then some (fun v => .ok v)
  else if k = "GZy" then some (fun v => .ok v)
  else if k = "nonid" then
    some (fun v => if v = 0 then .ok 1 else .error (.valueError "rejected"))
  else none

/-- A filesystem with one user file whose mapping holds the unregistered
key `foo_bar`. -/
def fsC1 : FileSystem Nat := fun f =>
  if f = "user.yml" then some ⟨none, none, [("foo_bar", 5)]⟩ else none

/-- A pre-load state from an earlier successful load: the user had
overridden the default `a = 1` with `a = 2`. -/
def stC1 : LoadState Nat :=
  { config := [("a", 2)], config_default := [("a", 1)], config_orig := [("a", 2)] }

/-- A filesystem where the user file sets `a = 1` and includes a file
setting `a = 2`. -/
def fsC2 : FileSystem Nat := fun f =>
  if f = "user.yml" then some ⟨none, some "inc.yml", [("a", 1)]⟩
  else if f = "inc.yml" then some ⟨none, none, [("a", 2)]⟩
  else none

/-- An empty filesystem: every file is missing. -/
def fsNone : FileSystem Nat := fun _ => none

/-- A filesystem with one user file mapping `pos` to `3`. -/
def fsC4 : FileSystem Nat := fun f =>
  if f = "user4.yml" then some ⟨none, none, [("pos", 3)]⟩ else none

/-- A fresh state whose defaults map `a` to `1`. -/
def stC4 : LoadState Nat :=
  { config := [], config_default := [("a", 1)], config_orig := [] }

/-! The claims. -/

/-- C5: `Config.__setitem__` looks the validator up by key; with no
validator registered it fails with the `InvalidConfigParameter` naming
the key (the spec's `UnknownKeyError`); when the validator raises
`ValueError` it fails with the `InvalidConfigParameter` naming the key
and wrapping the validator's message (the spec's `InvalidValueError`);
otherwise it stores the validator's coerced value. No failure is
dropped: each branch returns an error. -/
theorem c5_setitem_cases (reg : Registry V) (d : Dict V) (key : String) (val : V) :
    (reg key = none →
      setitem reg d key val =
        .error (.invalidParam ("`" ++ key ++ "` is not a valid config parameter."))) ∧
    (∀ f m, reg key = some f → f val = .error (.valueError m) →
      setitem reg d key val =
        .error (.invalidParam ("Key `" ++ key ++ "`: " ++ m))) ∧
    (∀ f cv, reg key = some f → f val = .ok cv →
      setitem reg d key val = .ok (Dict.set d key cv)) := by
  refine ⟨?_, ?_, ?_⟩ <;> intros <;> simp [setitem, validate_value, *]

/-- Witness for C5: all three branches of `__setitem__` at concrete
inputs of the concrete registry. -/
theorem c5_setitem_cases_witness :
    setitem regW [] "foo_bar" (0 : Nat) =
      .error (.invalidParam "`foo_bar` is not a valid config parameter.") ∧
    setitem regW [] "pos" 0 = .error (.invalidParam "Key `pos`: not positive") ∧
    setitem regW [] "a" 7 = .ok [("a", 7)] :=
  ⟨(c5_setitem_cases regW [] "foo_bar" 0).1 rfl,
   (c5_setitem_cases regW [] "pos" 0).2.1 _ "not positive" rfl rfl,
   (c5_setitem_cases regW [] "a" 7).2.2 _ 7 rfl rfl⟩

/-- C6: round-trip — when the registered validator accepts a raw value,
writing it through `__setitem__` and reading it back with
`__getitem__` returns exactly the value the validator produced. -/
theorem c6_roundtrip {reg : Registry V} {k : String} {f : Validator V} {v cv : V}
    (d : Dict V) (hf : reg k = some f) (hv : f v = .ok cv) :
    ∃ d2, setitem reg d k v = .ok d2 ∧ getitem d2 k = some cv := by
  refine ⟨Dict.set d k cv, ?_, ?_⟩
  · simp [setitem, validate_value, hf, hv]
  · unfold getitem
    rw [lookup_set, if_pos rfl]

/-- Witness for C6 at a concrete key and value. -/
theorem c6_roundtrip_witness :
    ∃ d2, setitem regW [] "pos" 5 = .ok d2 ∧ getitem d2 "pos" = some 5 :=
  c6_roundtrip [] rfl rfl

/-- C7: `Config.__iter__` yields exactly the stored keys (a permutation
of them), in lexicographically sorted order, and the iteration is a
function of the current key multiset alone — any two dicts whose keys
are a permutation of each other (in particular the same dict after any
reordering of insertions) iterate identically, so each fresh iteration
re-sorts the keys currently present. -/
theorem c7_iteration_sorted (d d2 : Dict V) :
    (iterKeys d).Perm (Dict.keys d) ∧
    (iterKeys d).Sorted strLeR ∧
    ((Dict.keys d).Perm (Dict.keys d2) → iterKeys d = iterKeys d2) :=
  ⟨iterKeys_perm d, iterKeys_sorted d, iterKeys_canonical⟩

/-- Witness for C7: two insertion orders of the same keys iterate in the
same sorted order. -/
theorem c7_iteration_sorted_witness :
    iterKeys [(("b" : String), (1 : Nat)), ("a", 2)] =
      iterKeys [(("a" : String), (2 : Nat)), ("b", 1)] ∧
    iterKeys [(("b" : String), (1 : Nat)), ("a", 2)] = ["a", "b"] :=
  ⟨(c7_iteration_sorted [("b", 1), ("a", 2)] [("a", 2), ("b", 1)]).2.2 (by decide),
   by decide⟩

/-- C10: a `TypeError` raised by a validator is not caught by
`__setitem__` (which catches only `ValueError` and `KeyError`): it
propagates unchanged, not wrapped into the key-naming
`InvalidConfigParameter`, and the dict is unchanged by the failed
write. -/
theorem c10_typeerror_propagates {reg : Registry V} {k : String} {f : Validator V}
    {v : V} {m : String} (d : Dict V) (hf : reg k = some f)
    (hv : f v = .error (.typeError m)) :
    setitem reg d k v = .error (.uncaught (.typeError m)) ∧
    updateSeq reg d [(k, v)] = (d, some (.uncaught (.typeError m))) := by
  have hs : setitem reg d k v = .error (.uncaught (.typeError m)) := by
    simp [setitem, validate_value, hf, hv]
  exact ⟨hs, by simp [updateSeq, hs]⟩

/-- Witness for C10 on the concrete `TypeError`-raising validator. -/
theorem c10_typeerror_propagates_witness :
    setitem regW [(("a" : String), 1)] "ty" 0 =
      .error (.uncaught (.typeError "bad shape")) ∧
    updateSeq regW [("a", 1)] [("ty", 0)] =
      ([("a", 1)], some (.uncaught (.typeError "bad shape"))) :=
  c10_typeerror_propagates _ rfl rfl

/-- C1 counterexample: a load that fails on the unregistered key
`foo_bar` does not roll the live configuration back to the pre-load
snapshot. Before the load, the previously-loaded key `a` held `2`; the
failed load leaves `config` holding the re-validated default `1`, so a
subsequent get no longer returns the last known-good value. -/
theorem c1_no_rollback_counterexample :
    (load_user_config regW fsC1 1 "user.yml" true stC1).2 =
      some (.configErr (.invalidParam "`foo_bar` is not a valid config parameter.")) ∧
    Dict.lookup stC1.config "a" = some 2 ∧
    Dict.lookup (load_user_config regW fsC1 1 "user.yml" true stC1).1.config "a" =
      some 1 ∧
    Dict.lookup (load_user_config regW fsC1 1 "user.yml" true stC1).1.config "a" ≠
      Dict.lookup stC1.config "a" := by
  refine ⟨rfl, rfl, rfl, ?_⟩
  decide

/-- C1 amended: if any entry of the raw mapping fails validation during
a load, the error propagates, but the live configuration is left
half-populated rather than rolled back: it equals the re-validated
defaults overlaid with the user entries processed before the failing
one (`config` was cleared first, so the pre-load contents are gone);
only the separate `config_orig` snapshot keeps its previous value. -/
theorem c1_load_failure_partial_state {reg : Registry V} {fs : FileSystem V}
    {fuel : Nat} {filename : String} {st : LoadState V}
    {mapping pre rest : List (String × V)} {k : String} {v : V}
    {c1 c2 : Dict V} {e : ConfigErr}
    (hread : read_config_file fs fuel filename = .ok mapping)
    (hmap : mapping = pre ++ (k, v) :: rest)
    (hdef : updateSeq reg [] (sortedItems st.config_default) = (c1, none))
    (hpre : updateSeq reg c1 pre = (c2, none))
    (hfail : setitem reg c2 k v = .error e) :
    load_user_config reg fs fuel filename true st =
      ({ st with config := c2 }, some (.configErr e)) := by
  rw [load_user_config_read_ok true st hread, hmap]
  exact load_with_mapping_fail_user hdef (updateSeq_fail rest hpre hfail)

/-- Witness for the amended C1 at the concrete failing load. -/
theorem c1_load_failure_partial_state_witness :
    load_user_config regW fsC1 1 "user.yml" true stC1 =
      ({ stC1 with config := [("a", 1)] },
        some (.configErr (.invalidParam "`foo_bar` is not a valid config parameter."))) :=
  @c1_load_failure_partial_state Nat regW fsC1 1 "user.yml" stC1
    [("foo_bar", 5)] [] [] "foo_bar" 5 [("a", 1)] [("a", 1)]
    (.invalidParam "`foo_bar` is not a valid config parameter.")
    rfl rfl rfl rfl rfl

/-- C2 counterexample: the user document sets `a = 1` and includes a
file setting `a = 2`; `read_config_file` returns the included file's
value for `a`, not the current document's — `cfg.update(include_cfg)`
lets the include win, the opposite of lower precedence. -/
theorem c2_include_wins_counterexample :
    read_config_file fsC2 2 "user.yml" = .ok [("a", 2)] ∧
    ([(("a" : String), (2 : Nat))] : Dict Nat) ≠ [("a", 1)] :=
  ⟨rfl, by decide⟩

/-- C2 amended: for a document with an `include` key, the included file
is loaded recursively and merged before validation, but at the higher
precedence: the result is the current document's entries updated with
the included file's entries, so for every key present in both, the
included file's value wins; keys only in the current document are
retained. -/
theorem c2_include_overrides_current {fs : FileSystem V} {fuel : Nat}
    {file inc : String} {doc : RawDoc V} {incEntries : List (String × V)}
    (hdoc : fs file = some doc) (hsite : doc.site = none)
    (hinc : doc.includeFile = some inc)
    (hread : read_config_file fs fuel inc = .ok incEntries)
    (hnd : (incEntries.map Prod.fst).Nodup) :
    read_config_file fs (fuel + 1) file = .ok (Dict.updateAll doc.entries incEntries) ∧
    (∀ k v, Dict.lookup incEntries k = some v →
      Dict.lookup (Dict.updateAll doc.entries incEntries) k = some v) ∧
    (∀ k, Dict.lookup incEntries k = none →
      Dict.lookup (Dict.updateAll doc.entries incEntries) k =
        Dict.lookup doc.entries k) :=
  ⟨read_config_file_include hdoc hsite hinc hread,
   fun _ _ hk => lookup_updateAll_of_some _ hnd hk,
   fun _ hk => lookup_updateAll_of_none _ hk⟩

/-- Witness for the amended C2 at the concrete include chain. -/
theorem c2_include_overrides_current_witness :
    read_config_file fsC2 2 "user.yml" =
      .ok (Dict.updateAll [("a", 1)] [("a", 2)]) ∧
    Dict.lookup (Dict.updateAll [(("a" : String), (1 : Nat))] [("a", 2)]) "a" =
      some 2 := by
  have h := @c2_include_overrides_current Nat fsC2 1 "user.yml" "inc.yml"
    ⟨none, some "inc.yml", [("a", 1)]⟩ [("a", 2)] rfl rfl rfl rfl (by decide)
  exact ⟨h.1, h.2.1 "a" 2 rfl⟩

/-- C3 counterexample: with the declared default of the
`raise_exception` parameter (`True`), a missing user configuration file
is fatal — the `IOError` propagates and there is no fallback to the
defaults. -/
theorem c3_fatal_by_default_counterexample :
    (load_user_config_def regW fsNone 1 "missing.yml" stC1).2 =
      some (.ioErr "Config file `missing.yml` does not exist.") ∧
    (load_user_config_def regW fsNone 1 "missing.yml" stC1).1 = stC1 ∧
    (load_user_config_def regW fsNone 1 "missing.yml" stC1).2 ≠ none := by
  refine ⟨rfl, rfl, ?_⟩
  decide

/-- C3 amended: a missing user configuration file is fatal under the
declared default `raise_exception=True` (the error propagates and the
state is untouched); it is non-fatal only when the caller passes
`raise_exception=False` explicitly, in which case the loader proceeds
with an empty mapping and the live configuration equals the
re-validated default mapping. -/
theorem c3_missing_user_file {reg : Registry V} {fs : FileSystem V}
    {fuel : Nat} {filename msg : String} {st : LoadState V} {c1 orig : Dict V}
    (hread : read_config_file fs fuel filename = .error msg) :
    load_user_config reg fs fuel filename load_user_config_default_raise st =
      (st, some (.ioErr msg)) ∧
    (updateSeq reg [] (sortedItems st.config_default) = (c1, none) →
      updateSeq reg [] (sortedItems c1) = (orig, none) →
      load_user_config reg fs fuel filename false st =
        ({ st with config := c1, config_orig := orig }, none)) := by
  constructor
  · exact (load_user_config_read_error st hread).1
  · intro hdef horig
    rw [(load_user_config_read_error st hread).2]
    exact load_with_mapping_all_ok hdef rfl horig

/-- Witness for the amended C3 at the concrete missing file. -/
theorem c3_missing_user_file_witness :
    load_user_config regW fsNone 1 "missing.yml" load_user_config_default_raise stC1 =
      (stC1, some (.ioErr "Config file `missing.yml` does not exist.")) ∧
    load_user_config regW fsNone 1 "missing.yml" false stC1 =
      ({ stC1 with config := [("a", 1)], config_orig := [("a", 1)] }, none) := by
  have h := @c3_missing_user_file Nat regW fsNone 1 "missing.yml"
    "Config file `missing.yml` does not exist." stC1 [("a", 1)] [("a", 1)] rfl
  exact ⟨h.1, h.2 rfl rfl⟩

/-- The state produced by the successful load of `fsC4` over `stC4`. -/
def stC4' : LoadState Nat :=
  { config := [("a", 1), ("pos", 3)], config_default := [("a", 1)],
    config_orig := [("a", 1), ("pos", 3)] }

/-- C4: after a successful load of the defaults followed by the user
mapping, the live configuration is the default mapping overlaid
key-by-key with the user mapping: every key of the user mapping holds
the validated user value (the user wins on conflict), every key only in
the defaults holds the validated default value, and no other key is
present. -/
theorem c4_merge_user_over_defaults {reg : Registry V} {fs : FileSystem V}
    {fuel : Nat} {filename : String} {raise_exception : Bool}
    {st st' : LoadState V} {mapping : List (String × V)}
    (hread : read_config_file fs fuel filename = .ok mapping)
    (hload : load_user_config reg fs fuel filename raise_exception st = (st', none))
    (hndM : (mapping.map Prod.fst).Nodup)
    (hndD : (Dict.keys st.config_default).Nodup) :
    (∀ k v, Dict.lookup mapping k = some v →
      ∃ cv, validate_value reg k v = .ok cv ∧ Dict.lookup st'.config k = some cv) ∧
    (∀ k, Dict.lookup mapping k = none →
      ∀ v, Dict.lookup st.config_default k = some v →
      ∃ cv, validate_value reg k v = .ok cv ∧ Dict.lookup st'.config k = some cv) ∧
    (∀ k, Dict.lookup mapping k = none → Dict.lookup st.config_default k = none →
      Dict.lookup st'.config k = none) := by
  rw [load_user_config_read_ok raise_exception st hread] at hload
  obtain ⟨c1, hdef, hmap⟩ := load_with_mapping_ok hload
  have hndS : ((sortedItems st.config_default).map Prod.fst).Nodup := by
    rw [keys_sortedItems]
    exact iterKeys_nodup hndD
  refine ⟨?_, ?_, ?_⟩
  · intro k v hk
    exact updateSeq_ok_lookup_of_mem hndM (mem_of_lookup_some hk) hmap
  · intro k hk v hv
    have hnotm : k ∉ mapping.map Prod.fst := not_mem_keys_of_lookup_none hk
    have hc2 : Dict.lookup st'.config k = Dict.lookup c1 k := by
      have h2 := @updateSeq_fst_lookup_of_not_mem V reg mapping k c1 hnotm
      rw [hmap] at h2
      exact h2
    obtain ⟨cv, hval, hlk⟩ :=
      updateSeq_ok_lookup_of_mem hndS (mem_sortedItems.mpr hv) hdef
    exact ⟨cv, hval, hc2.trans hlk⟩
  · intro k hk hd
    have hnotm : k ∉ mapping.map Prod.fst := not_mem_keys_of_lookup_none hk
    have hc2 : Dict.lookup st'.config k = Dict.lookup c1 k := by
      have h2 := @updateSeq_fst_lookup_of_not_mem V reg mapping k c1 hnotm
      rw [hmap] at h2
      exact h2
    have hnotd : k ∉ (sortedItems st.config_default).map Prod.fst := by
      rw [keys_sortedItems]
      intro hkk
      exact not_mem_keys_of_lookup_none hd (mem_iterKeys.mp hkk)
    have hc1 : Dict.lookup c1 k = none := by
      have h1 := @updateSeq_fst_lookup_of_not_mem V reg
        (sortedItems st.config_default) k [] hnotd
      rw [hdef] at h1
      exact h1
    rw [hc2, hc1]

/-- Witness for C4: the user's `pos = 3` is stored, and the default
`a = 1` (absent from the user mapping) is retained. -/
theorem c4_merge_user_over_defaults_witness :
    (∃ cv, validate_value regW "pos" (3 : Nat) = .ok cv ∧
      Dict.lookup stC4'.config "pos" = some cv) ∧
    (∃ cv, validate_value regW "a" (1 : Nat) = .ok cv ∧
      Dict.lookup stC4'.config "a" = some cv) := by
  have h := @c4_merge_user_over_defaults Nat regW fsC4 1 "user4.yml" false
    stC4 stC4' [("pos", 3)] rfl rfl (by decide) (by decide)
  exact ⟨h.1 "pos" 3 rfl, h.2.1 "a" rfl 1 rfl⟩

/-- C8 counterexample: `select_group("G")` compiles the regex `^G.` in
which the unescaped dot matches any character: the key `GZy`, which has
no literal dot after the prefix `G` and should (per the claim) be
excluded entirely, is matched and included as `y`. -/
theorem c8_any_char_counterexample :
    select_group regW "G" [("GZy", 3)] = .ok [("y", 3)] ∧
    select_group regW "G" [("GZy", 3)] ≠ .ok [] := by
  refine ⟨rfl, ?_⟩
  intro h
  have h2 : (Except.ok ([] : Dict Nat) : Except ConfigErr (Dict Nat)) =
      .ok [("y", 3)] :=
    h.symm.trans (rfl : select_group regW "G" [("GZy", 3)] = .ok [("y", 3)])
  injection h2 with h3
  cases h3

/-- C8 amended: `select_group(g)` returns a fresh plain mapping built
from the `find_all` subset for the regex `^g.`: a source key is
included exactly when it consists of `g` followed by at least one
character whose first is any character other than a newline (not only a
literal dot), its first `len(g) + 1` characters are then stripped, and
every included value has been routed through its validator a second
time by `find_all`. All other keys are excluded. -/
theorem c8_select_group_spec {reg : Registry V} {g : String} {d subset : Dict V}
    (hnd : (Dict.keys d).Nodup)
    (hfind : find_all reg (selectGroupMatch g) d = .ok subset) :
    select_group reg g d =
      .ok (Dict.ofList ((sortedItems subset).map
        (fun kv => (String.mk (kv.1.toList.drop (g.length + 1)), kv.2)))) ∧
    (∀ k, k ∈ Dict.keys subset ↔ (k ∈ Dict.keys d ∧ selectGroupMatch g k = true)) ∧
    (∀ k cv, Dict.lookup subset k = some cv →
      ∃ v, Dict.lookup d k = some v ∧ validate_value reg k v = .ok cv) := by
  have hseq := find_all_ok_inv hfind
  have hndI := filtered_items_keys_nodup hnd (selectGroupMatch g)
  refine ⟨?_, ?_, ?_⟩
  · simp only [select_group, hfind]
  · intro k
    have hkeys : Dict.keys subset =
        ((sortedItems d).filter (fun kv => selectGroupMatch g kv.1)).map Prod.fst := by
      have := @updateSeq_ok_keys V reg [] subset
        ((sortedItems d).filter (fun kv => selectGroupMatch g kv.1))
        hndI (fun _ _ => rfl) hseq
      simpa using this
    rw [hkeys]
    exact mem_filtered_keys_iff
  · intro k cv hcv
    have hkmem := updateSeq_nil_lookup_some_mem hseq hcv
    obtain ⟨⟨k', v⟩, hkv, hfst⟩ := List.mem_map.mp hkmem
    obtain rfl : k' = k := hfst
    obtain ⟨hmemS, -⟩ := List.mem_filter.mp hkv
    obtain ⟨cv', hval, hlk⟩ := updateSeq_ok_lookup_of_mem hndI hkv hseq
    have heq : cv' = cv := Option.some_inj.mp (hlk.symm.trans hcv)
    exact ⟨v, mem_sortedItems.mp hmemS, heq ▸ hval⟩

/-- Witness for the amended C8: both the dotted key `G.x` and the
dot-free key `GZy` are included (stripped to `x` and `y`), while `a` is
excluded. -/
theorem c8_select_group_spec_witness :
    select_group regW "G" [("G.x", 1), ("GZy", 2), ("a", 3)] =
      .ok [("x", 1), ("y", 2)] ∧
    ("GZy" ∈ Dict.keys [(("G.x" : String), (1 : Nat)), ("GZy", 2)] ↔
      ("GZy" ∈ Dict.keys [(("G.x" : String), (1 : Nat)), ("GZy", 2), ("a", 3)] ∧
        selectGroupMatch "G" "GZy" = true)) := by
  have h := @c8_select_group_spec Nat regW "G" [("G.x", 1), ("GZy", 2), ("a", 3)]
    [("G.x", 1), ("GZy", 2)] (by decide) rfl
  exact ⟨h.1, h.2.1 "GZy"⟩

/-- C9: `find_all` rebuilds its result through the `Config` constructor,
so every returned value is the registered validator applied a second
time to the already-validated stored value; consequently the result's
entries equal the source's matching entries whenever the involved
validators are idempotent on the stored values, and `find_all` fails
outright on a stored value whose validator rejects its own output
(exhibited on the concrete non-idempotent validator `nonid`). -/
theorem c9_find_all_revalidates {reg : Registry V} {p : String → Bool} {d s : Dict V}
    (hnd : (Dict.keys d).Nodup) (hfind : find_all reg p d = .ok s) :
    (∀ k cv, Dict.lookup s k = some cv →
      ∃ v, Dict.lookup d k = some v ∧ p k = true ∧ validate_value reg k v = .ok cv) ∧
    ((∀ k v, Dict.lookup d k = some v → p k = true → validate_value reg k v = .ok v) →
      ∀ k, p k = true → Dict.lookup s k = Dict.lookup d k) ∧
    (∃ e, find_all regW (fun _ => true) [("nonid", 1)] = .error e) := by
  have hseq := find_all_ok_inv hfind
  have hndI := filtered_items_keys_nodup hnd p
  refine ⟨?_, ?_, ⟨.invalidParam "Key `nonid`: rejected", rfl⟩⟩
  · intro k cv hcv
    have hkmem := updateSeq_nil_lookup_some_mem hseq hcv
    obtain ⟨⟨k', v⟩, hkv, hfst⟩ := List.mem_map.mp hkmem
    obtain rfl : k' = k := hfst
    obtain ⟨hmemS, hp⟩ := List.mem_filter.mp hkv
    obtain ⟨cv', hval, hlk⟩ := updateSeq_ok_lookup_of_mem hndI hkv hseq
    have heq : cv' = cv := Option.some_inj.mp (hlk.symm.trans hcv)
    exact ⟨v, mem_sortedItems.mp hmemS, hp, heq ▸ hval⟩
  · intro hid k hp
    cases hld : Dict.lookup d k with
    | none =>
        have hnot : k ∉ ((sortedItems d).filter (fun kv => p kv.1)).map Prod.fst := by
          intro hk
          exact not_mem_keys_of_lookup_none hld (mem_filtered_keys_iff.mp hk).1
        have h0 := @updateSeq_fst_lookup_of_not_mem V reg
          ((sortedItems d).filter (fun kv => p kv.1)) k [] hnot
        rw [hseq] at h0
        exact h0
    | some v =>
        have hkv : (k, v) ∈ (sortedItems d).filter (fun kv => p kv.1) :=
          List.mem_filter.mpr ⟨mem_sortedItems.mpr hld, hp⟩
        obtain ⟨cv, hval, hlk⟩ := updateSeq_ok_lookup_of_mem hndI hkv hseq
        have hvv : cv = v := by
          have h2 := (hval.symm.trans (hid k v hld hp))
          exact Except.ok.injEq .. ▸ h2
        rw [hlk, hvv]

/-- Witness for C9: applying the re-validation description to the
concrete identity validator. -/
theorem c9_find_all_revalidates_witness :
    ∃ v, Dict.lookup [(("a" : String), (5 : Nat))] "a" = some v ∧
      (fun _ => true) "a" = true ∧ validate_value regW "a" v = .ok 5 :=
  (@c9_find_all_revalidates Nat regW (fun _ => true) [("a", 5)] [("a", 5)]
    (by decide) rfl).1 "a" 5 rfl

end ESMValConf
